import Mathlib

/-!
Verification of the NetworkVisualizer core logic: a shallow embedding of the
conflict detector, timeline aggregator, network builder, alias resolver and
record-normalization helpers, with theorems checking the specification's
claims against the embedded code.

Conventions of the embedding:
* dates are integer milliseconds since the epoch, the value that
  new Date(x).getTime() produces in the handlers;
* JavaScript numbers are modeled as exact rationals (resp. integers where the
  code only ever holds integers); NaN is modeled by Option.none where it can
  arise;
* nullable database columns are Option values; strings are Lean Strings,
  except in the name-splitting functions where the character-list view is
  used so that the split functions are structurally recursive.
-/

namespace NV

/-- Milliseconds in one day, as written in the conflicts handler:
1000 * 60 * 60 * 24. -/
def msPerDay : Int := 1000 * 60 * 60 * 24

/-- A row of the votes table (shared/schema.ts): bill name and result are
non-null text, the description is nullable, the vote date is a date column
read as milliseconds. -/
structure Vote where
  id : Nat
  politicianId : Nat
  billName : String
  billDescription : Option String
  voteDate : Int
  voteResult : String
deriving DecidableEq, Repr

/-- A row of the stock_transactions table (shared/schema.ts). The amount is a
decimal column, delivered to the JavaScript code as a string; related_bill is
nullable text. -/
structure StockTransaction where
  id : Nat
  politicianId : Nat
  stockName : String
  tradeDate : Int
  tradeType : String
  amount : String
  relatedBill : Option String
  potentialConflict : Bool
deriving DecidableEq, Repr

/-- A row of the contributions table (shared/schema.ts). -/
structure Contribution where
  id : Nat
  politicianId : Nat
  organization : String
  amount : String
  contributionDate : Int
  industry : Option String
deriving DecidableEq, Repr

/-- The conflict record pushed by the conflicts handler
(server routes, GET /api/politicians/:id/conflicts). -/
structure Conflict where
  trade_id : Nat
  bill_id : Nat
  delta_days : Int
  amount : String
  symbol : String
  vote_date : Int
  trade_date : Int
  trade_type : String
  vote_result : String
  bill_name : String
  bill_description : Option String
deriving DecidableEq, Repr

/-- Ceiling division on naturals, the exact value of Math.ceil(a / b) for
the integer quantities the conflicts handler divides. -/
def natCeilDiv (a b : Nat) : Nat := (a + b - 1) / b

/-- The delta in whole days between a vote and a trade:
Math.ceil(Math.abs(voteDate - tradeDate) / msPerDay). -/
def deltaDays (t : StockTransaction) (v : Vote) : Int :=
  natCeilDiv (v.voteDate - t.tradeDate).natAbs msPerDay.toNat

/-- The record the conflicts handler pushes for a matching pair. -/
def mkConflict (t : StockTransaction) (v : Vote) : Conflict :=
  { trade_id := t.id
    bill_id := v.id
    delta_days := deltaDays t v
    amount := t.amount
    symbol := t.stockName
    vote_date := v.voteDate
    trade_date := t.tradeDate
    trade_type := t.tradeType
    vote_result := v.voteResult
    bill_name := v.billName
    bill_description := v.billDescription }

/-- The body of the outer loop of the conflicts handler for one transaction:
skip when related_bill is null or empty (JavaScript falsiness of
transaction.relatedBill), filter the votes whose bill name equals the related
bill, and keep the pairs whose day delta is within the window. -/
def conflictsForTransaction (vs : List Vote) (days : Int) (t : StockTransaction) :
    List Conflict :=
  match t.relatedBill with
  | none => []
  | some b =>
    if b = "" then []
    else
      (((vs.filter (fun v => v.billName == b)).filter
        (fun v => deltaDays t v ≤ days)).map (mkConflict t))

/-- The conflict detector of GET /api/politicians/:id/conflicts: iterate the
transactions in order, appending the conflicts found for each. -/
def detectConflicts : List StockTransaction → List Vote → Int → List Conflict
  | [], _, _ => []
  | t :: ts, vs, days => conflictsForTransaction vs days t ++ detectConflicts ts vs days

lemma mem_conflictsForTransaction {vs : List Vote} {days : Int}
    {t : StockTransaction} {c : Conflict} :
    c ∈ conflictsForTransaction vs days t ↔
      ∃ v ∈ vs, (∃ b, t.relatedBill = some b ∧ b ≠ "" ∧ v.billName = b) ∧
        deltaDays t v ≤ days ∧ c = mkConflict t v := by
  unfold conflictsForTransaction
  cases hrb : t.relatedBill with
  | none => simp
  | some b =>
    by_cases hb : b = ""
    · simp [hb]
    · simp only [if_neg hb, List.mem_map, List.mem_filter, beq_iff_eq,
        decide_eq_true_eq]
      constructor
      · rintro ⟨v, ⟨⟨hv, hbill⟩, hd⟩, rfl⟩
        exact ⟨v, hv, ⟨b, rfl, hb, hbill⟩, hd, rfl⟩
      · rintro ⟨v, hv, ⟨b', hb', hbne', hbill⟩, hd, rfl⟩
        obtain rfl : b = b' := Option.some.inj hb'
        exact ⟨v, ⟨⟨hv, hbill⟩, hd⟩, rfl⟩

lemma mem_detectConflicts {ts : List StockTransaction} {vs : List Vote}
    {days : Int} {c : Conflict} :
    c ∈ detectConflicts ts vs days ↔
      ∃ t ∈ ts, c ∈ conflictsForTransaction vs days t := by
  induction ts with
  | nil => simp [detectConflicts]
  | cons t ts ih => simp [detectConflicts, ih, or_and_right, exists_or]

/-- C1: a (transaction, vote) pair with a non-empty related bill matching the
vote's bill name yields a conflict record exactly when the whole-day delta
(ceiling of the absolute millisecond difference over one day's milliseconds)
is at most the window. -/
theorem conflict_window_iff (ts : List StockTransaction) (vs : List Vote)
    (days : Int) (t : StockTransaction) (v : Vote) (b : String)
    (ht : t ∈ ts) (hv : v ∈ vs) (hb : t.relatedBill = some b) (hbne : b ≠ "")
    (hbill : v.billName = b) :
    mkConflict t v ∈ detectConflicts ts vs days ↔ deltaDays t v ≤ days := by
  constructor
  · intro hmem
    rcases mem_detectConflicts.mp hmem with ⟨t', _, hc⟩
    rcases mem_conflictsForTransaction.mp hc with ⟨v', _, _, hd, heq⟩
    have hdelta : deltaDays t v = deltaDays t' v' := congrArg Conflict.delta_days heq
    rwa [hdelta]
  · intro hd
    exact mem_detectConflicts.mpr ⟨t, ht,
      mem_conflictsForTransaction.mpr ⟨v, hv, ⟨b, hb, hbne, hbill⟩, hd, rfl⟩⟩

/-- Sample transaction used by concrete witnesses: trade at epoch day 0. -/
def sampleTxn : StockTransaction :=
  { id := 1
    politicianId := 7
    stockName := "ACME"
    tradeDate := 0
    tradeType := "BUY"
    amount := "5000"
    relatedBill := some "HR1"
    potentialConflict := false }

/-- Sample vote used by concrete witnesses: vote exactly 30 days after the
sample trade. -/
def sampleVote : Vote :=
  { id := 2
    politicianId := 7
    billName := "HR1"
    billDescription := none
    voteDate := 30 * msPerDay
    voteResult := "YES" }

lemma length_conflictsForTransaction_all (vs : List Vote) (days : Int)
    (t : StockTransaction) (b : String) (hb : t.relatedBill = some b)
    (hbne : b ≠ "") (hbill : ∀ v ∈ vs, v.billName = b)
    (hd : ∀ v ∈ vs, deltaDays t v ≤ days) :
    (conflictsForTransaction vs days t).length = vs.length := by
  simp only [conflictsForTransaction, hb]
  rw [if_neg hbne, List.length_map]
  rw [List.filter_eq_self.mpr, List.filter_eq_self.mpr]
  · intro v hv
    simpa using hbill v hv
  · intro v hv
    have hv' : v ∈ vs := List.mem_of_mem_filter hv
    simpa using hd v hv'

/-- C2: with 2 transactions and 3 votes all referencing the same bill and all
pairs inside the window, the detector emits the full cross-product of 6
conflict entries, with no deduplication. -/
theorem conflict_cross_product (t1 t2 : StockTransaction) (v1 v2 v3 : Vote)
    (days : Int) (b : String) (hbne : b ≠ "")
    (ht1 : t1.relatedBill = some b) (ht2 : t2.relatedBill = some b)
    (hv1 : v1.billName = b) (hv2 : v2.billName = b) (hv3 : v3.billName = b)
    (hd : ∀ t ∈ [t1, t2], ∀ v ∈ [v1, v2, v3], deltaDays t v ≤ days) :
    (detectConflicts [t1, t2] [v1, v2, v3] days).length = 6 := by
  have hbill : ∀ v ∈ [v1, v2, v3], v.billName = b := by
    intro v hv
    simp only [List.mem_cons, List.not_mem_nil, or_false, List.mem_singleton] at hv
    rcases hv with rfl | rfl | rfl <;> assumption
  have h1 := length_conflictsForTransaction_all [v1, v2, v3] days t1 b ht1 hbne
    hbill (hd t1 (by simp))
  have h2 := length_conflictsForTransaction_all [v1, v2, v3] days t2 b ht2 hbne
    hbill (hd t2 (by simp))
  simp [detectConflicts, h1, h2]

theorem conflict_cross_product_witness :
    (detectConflicts
      [sampleTxn, { sampleTxn with id := 3, tradeDate := 2 * msPerDay }]
      [sampleVote,
       { sampleVote with id := 4, voteDate := msPerDay },
       { sampleVote with id := 5, voteDate := 5 * msPerDay }] 30).length = 6 :=
  conflict_cross_product sampleTxn { sampleTxn with id := 3, tradeDate := 2 * msPerDay }
    sampleVote { sampleVote with id := 4, voteDate := msPerDay }
    { sampleVote with id := 5, voteDate := 5 * msPerDay } 30 "HR1"
    (by decide) (by decide) (by decide) (by decide) (by decide) (by decide)
    (by decide)

theorem conflict_window_iff_witness :
    mkConflict sampleTxn sampleVote ∈ detectConflicts [sampleTxn] [sampleVote] 30 :=
  (conflict_window_iff [sampleTxn] [sampleVote] 30 sampleTxn sampleVote "HR1"
    (by simp) (by simp) (by decide) (by decide) (by decide)).mpr (by decide)

/-- The payload carried by a timeline item (the data field of the items built
by GET /api/politicians/:id/timeline). -/
inductive TimelineData where
  | vote (v : Vote)
  | contribution (c : Contribution)
  | stock (t : StockTransaction)
deriving DecidableEq, Repr

/-- One element of the merged timeline of GET /api/politicians/:id/timeline:
a uid, a discriminant type tag, the wrapped record, the unified date and the
optional amount. -/
structure TimelineItem where
  uid : String
  type : String
  data : TimelineData
  date : Int
  amount : Option String
deriving DecidableEq, Repr

/-- Wrapping of a vote for the timeline: uid vote_id, tag vote, date
vote.voteDate, amount null. -/
def voteItem (v : Vote) : TimelineItem :=
  { uid := "vote_" ++ toString v.id
    type := "vote"
    data := .vote v
    date := v.voteDate
    amount := none }

/-- Wrapping of a contribution for the timeline. -/
def contributionItem (c : Contribution) : TimelineItem :=
  { uid := "contribution_" ++ toString c.id
    type := "contribution"
    data := .contribution c
    date := c.contributionDate
    amount := some c.amount }

/-- Wrapping of a stock transaction for the timeline. -/
def stockItem (t : StockTransaction) : TimelineItem :=
  { uid := "transaction_" ++ toString t.id
    type := "stock_transaction"
    data := .stock t
    date := t.tradeDate
    amount := some t.amount }

/-- The merged (unsorted) timeline list: votes, then contributions, then
stock transactions, in their fetched order. -/
def mkTimelineItems (votes : List Vote) (contribs : List Contribution)
    (stocks : List StockTransaction) : List TimelineItem :=
  votes.map voteItem ++ contribs.map contributionItem ++ stocks.map stockItem

/-- Stable insertion used by the model of the JavaScript stable sort: x is
placed before the first element y such that le x y. -/
def sortInsert (le : α → α → Bool) (x : α) : List α → List α
  | [] => [x]
  | y :: ys => if le x y then x :: y :: ys else y :: sortInsert le x ys

/-- Model of Array.prototype.sort with a consistent comparator c: a stable
sort placing a before b exactly when c(a, b) is nonpositive (ties keep the
original order, as ECMAScript guarantees). -/
def stableSort (le : α → α → Bool) : List α → List α
  | [] => []
  | x :: xs => sortInsert le x (stableSort le xs)

/-- The timeline sort of GET /api/politicians/:id/timeline: comparator
(a, b) => dateB - dateA, i.e. descending by date. -/
def sortTimelineDesc (items : List TimelineItem) : List TimelineItem :=
  stableSort (fun a b => b.date ≤ a.date) items

/-- The sort direction factor of the routes.ts timeline handler:
req.query.sort === 'asc' ? 1 : -1. -/
def routesSortDirection (sortParam : Option String) : Int :=
  if sortParam == some "asc" then 1 else -1

/-- The timeline sort of the routes.ts handler: comparator
(a, b) => sortDirection * (dateB - dateA). The event payload plays no role
in the comparator, so the sort is modeled on the same item type. -/
def routesTimelineSort (sortParam : Option String) (events : List TimelineItem) :
    List TimelineItem :=
  stableSort (fun a b => routesSortDirection sortParam * (b.date - a.date) ≤ 0) events

/-- The response record of GET /api/politicians/:id/timeline. -/
structure TimelinePage where
  items : List TimelineItem
  total : Nat
  page : Nat
  page_size : Nat
  total_pages : Nat
  next_page : Option Nat
deriving DecidableEq, Repr

/-- Model of Array.prototype.slice(s, e) on lists. -/
def listSlice (s e : Nat) (xs : List α) : List α := (xs.drop s).take (e - s)

/-- The pagination step of GET /api/politicians/:id/timeline: startIndex is
(page - 1) * pageSize, endIndex is startIndex + pageSize, the slice between
them is returned with the totals and the next-page indicator
(endIndex < total). -/
def paginateTimeline (xs : List TimelineItem) (page pageSize : Nat) : TimelinePage :=
  let startIndex := (page - 1) * pageSize
  let endIndex := startIndex + pageSize
  { items := listSlice startIndex endIndex xs
    total := xs.length
    page := page
    page_size := pageSize
    total_pages := natCeilDiv xs.length pageSize
    next_page := if endIndex < xs.length then some (page + 1) else none }

/-- The full timeline endpoint: merge, sort descending, paginate. -/
def getTimeline (votes : List Vote) (contribs : List Contribution)
    (stocks : List StockTransaction) (page pageSize : Nat) : TimelinePage :=
  paginateTimeline (sortTimelineDesc (mkTimelineItems votes contribs stocks)) page pageSize

/-- A vote dated 2023-01-01T00:00:00Z. -/
def voteJan : Vote :=
  { id := 11
    politicianId := 7
    billName := "HR9"
    billDescription := some "energy bill"
    voteDate := 1672531200000
    voteResult := "YES" }

/-- A contribution dated 2023-06-01T00:00:00Z. -/
def contribJun : Contribution :=
  { id := 12
    politicianId := 7
    organization := "Acme PAC"
    amount := "250"
    contributionDate := 1685577600000
    industry := some "Energy" }

/-- A stock transaction dated 2023-03-01T00:00:00Z. -/
def stockMar : StockTransaction :=
  { id := 13
    politicianId := 7
    stockName := "ACME"
    tradeDate := 1677628800000
    tradeType := "SELL"
    amount := "9000"
    relatedBill := none
    potentialConflict := false }

/-- C4: the merge-and-sort of the timeline handler does order the three
example records [contribution, stock transaction, vote] descending, but the
direction flag of the routes.ts handler is inverted: with the sort parameter
absent the comparator -(dateB - dateA) orders oldest first, contradicting
the handler's own comment that the default is newest first, and passing
sort=asc produces the newest-first order. -/
theorem timeline_sort_direction_bug :
    sortTimelineDesc (mkTimelineItems [voteJan] [contribJun] [stockMar])
        = [contributionItem contribJun, stockItem stockMar, voteItem voteJan]
      ∧ routesTimelineSort none [voteItem voteJan, contributionItem contribJun]
        = [voteItem voteJan, contributionItem contribJun]
      ∧ (voteItem voteJan).date < (contributionItem contribJun).date
      ∧ routesTimelineSort (some "asc") [voteItem voteJan, contributionItem contribJun]
        = [contributionItem contribJun, voteItem voteJan] := by
  refine ⟨by decide, by decide, by decide, by decide⟩

/-- C5: timeline pagination is offset pagination with a 1-indexed page: the
items are the slice from (page - 1) * pageSize of length pageSize, the total
and total_pages (the ceiling of total / pageSize, stated with the order
characterization of ceiling division) are returned, and next_page is
page + 1 exactly when items remain beyond this page and null otherwise; for
25 items with page size 10, pages 1, 2, 3 hold 10, 10 and 5 items and only
page 3 has a null next_page. -/
theorem timeline_pagination (xs : List TimelineItem) (page ps : Nat)
    (hpage : 1 ≤ page) (hps : 1 ≤ ps) :
    ((paginateTimeline xs page ps).items = (xs.drop ((page - 1) * ps)).take ps
      ∧ (paginateTimeline xs page ps).total = xs.length
      ∧ (paginateTimeline xs page ps).total_pages = xs.length ⌈/⌉ ps
      ∧ xs.length ≤ (paginateTimeline xs page ps).total_pages * ps
      ∧ (∀ m : Nat, xs.length ≤ m * ps → (paginateTimeline xs page ps).total_pages ≤ m)
      ∧ (paginateTimeline xs page ps).next_page
          = if page * ps < xs.length then some (page + 1) else none)
    ∧ (∀ ys : List TimelineItem, ys.length = 25 →
        (paginateTimeline ys 1 10).items.length = 10
        ∧ (paginateTimeline ys 2 10).items.length = 10
        ∧ (paginateTimeline ys 3 10).items.length = 5
        ∧ (paginateTimeline ys 1 10).next_page = some 2
        ∧ (paginateTimeline ys 2 10).next_page = some 3
        ∧ (paginateTimeline ys 3 10).next_page = none
        ∧ (paginateTimeline ys 1 10).total_pages = 3) := by
  have hps0 : 0 < ps := hps
  have hmul : (page - 1) * ps + ps = page * ps := by
    calc (page - 1) * ps + ps = (page - 1 + 1) * ps := by rw [Nat.succ_mul]
    _ = page * ps := by rw [Nat.sub_add_cancel hpage]
  have hceil : natCeilDiv xs.length ps = xs.length ⌈/⌉ ps := by
    rw [Nat.ceilDiv_eq_add_pred_div]; rfl
  refine ⟨⟨?_, rfl, hceil, ?_, ?_, ?_⟩, ?_⟩
  · show listSlice ((page - 1) * ps) ((page - 1) * ps + ps) xs = _
    unfold listSlice
    rw [Nat.add_sub_cancel_left]
  · show xs.length ≤ natCeilDiv xs.length ps * ps
    rw [hceil, mul_comm]
    exact le_smul_ceilDiv hps0
  · intro m hm
    show natCeilDiv xs.length ps ≤ m
    rw [hceil]
    exact (ceilDiv_le_iff_le_mul hps0).mpr (by rwa [mul_comm] at hm)
  · show (if (page - 1) * ps + ps < xs.length then some (page + 1) else none) = _
    rw [hmul]
  · intro ys hys
    simp [paginateTimeline, listSlice, natCeilDiv, hys]

theorem timeline_pagination_witness :
    (paginateTimeline (List.replicate 25 (voteItem voteJan)) 3 10).items.length = 5
      ∧ (paginateTimeline (List.replicate 25 (voteItem voteJan)) 3 10).next_page = none := by
  have h := (timeline_pagination (List.replicate 25 (voteItem voteJan)) 3 10
    (by decide) (by decide)).2 (List.replicate 25 (voteItem voteJan)) (by simp)
  exact ⟨h.2.2.1, h.2.2.2.2.2.1⟩

/-- A row of the politicians table (shared/schema.ts). -/
structure Politician where
  id : Nat
  firstName : String
  lastName : String
  state : String
  party : String
  profileImage : Option String
  fecCandidateId : Option String
  bioguideId : Option String
deriving DecidableEq, Repr

/-- Value of a list of decimal digit characters. -/
def digitsToNat (ds : List Char) : Nat := ds.foldl (fun n c => 10 * n + (c.toNat - 48)) 0

/-- Model of the JavaScript parseFloat on a character list: optional leading
whitespace, optional sign, an integer part and an optional fractional part;
none models NaN (no digits at all); trailing garbage is ignored as
parseFloat does; exponent suffixes are outside the model. Numbers are exact
rationals. -/
def parseFloatChars (cs : List Char) : Option ℚ :=
  let cs1 := cs.dropWhile Char.isWhitespace
  let signed : ℚ × List Char :=
    match cs1 with
    | '-' :: r => (-1, r)
    | '+' :: r => (1, r)
    | _ => (1, cs1)
  let intPart := signed.2.takeWhile Char.isDigit
  let rest := signed.2.dropWhile Char.isDigit
  let fracPart : List Char :=
    match rest with
    | '.' :: r => r.takeWhile Char.isDigit
    | _ => []
  if intPart = [] ∧ fracPart = [] then none
  else some (signed.1 *
    ((digitsToNat intPart : ℚ) + (digitsToNat fracPart : ℚ) / (10 : ℚ) ^ fracPart.length))

/-- parseFloat on a string. -/
def parseFloatJS (s : String) : Option ℚ := parseFloatChars s.toList

/-- Model of the JavaScript parseInt (base 10 path): optional leading
whitespace, optional sign, then leading decimal digits; none models NaN. -/
def parseIntChars (cs : List Char) : Option Int :=
  let cs1 := cs.dropWhile Char.isWhitespace
  let signed : Bool × List Char :=
    match cs1 with
    | '-' :: r => (true, r)
    | '+' :: r => (false, r)
    | _ => (false, cs1)
  let ds := signed.2.takeWhile Char.isDigit
  if ds = [] then none
  else some ((if signed.1 then -1 else 1) * (digitsToNat ds : Int))

/-- parseInt on a string. -/
def parseIntJS (s : String) : Option Int := parseIntChars s.toList

/-- Replacement of every maximal whitespace run by one underscore, the
effect of org.replace of the whitespace-run pattern with an underscore in
the network handler. The boolean records whether the previous character was
whitespace. -/
def collapseWs : Bool → List Char → List Char
  | _, [] => []
  | prev, c :: cs =>
    if c.isWhitespace then
      (if prev then collapseWs true cs else '_' :: collapseWs true cs)
    else c :: collapseWs false cs

/-- The organization id sanitizer of the network handler. -/
def sanitizeOrgId (s : String) : String := String.mk (collapseWs false s.toList)

/-- A node of the network graph of GET /api/politicians/:id/network; the
organization nodes carry no party or state, modeled by none. -/
structure NetworkNode where
  id : String
  type : String
  label : String
  party : Option String
  state : Option String
deriving DecidableEq, Repr

/-- The politician node pushed first by the network handler. -/
def politicianNode (p : Politician) : NetworkNode :=
  { id := "p" ++ toString p.id
    type := "politician"
    label := p.firstName ++ " " ++ p.lastName
    party := some p.party
    state := some p.state }

/-- An organization node of the network handler. -/
def orgNode (org : String) : NetworkNode :=
  { id := "org_" ++ sanitizeOrgId org
    type := "organization"
    label := org
    party := none
    state := none }

/-- A link of the network graph; the weight is parseFloat of the amount
string (none models NaN). -/
structure NetworkLink where
  source : String
  target : String
  weight : Option ℚ
  kind : String
  date : Int
deriving DecidableEq, Repr

/-- The link the network handler creates for one in-window contribution. -/
def contributionLink (p : Politician) (c : Contribution) : NetworkLink :=
  { source := "org_" ++ sanitizeOrgId c.organization
    target := "p" ++ toString p.id
    weight := parseFloatJS c.amount
    kind := "contribution"
    date := c.contributionDate }

/-- Insertion into the set of organizations in iteration order, the effect
of Set.prototype.add. -/
def addOrg (acc : List String) (o : String) : List String :=
  if o ∈ acc then acc else acc ++ [o]

/-- The response shape of GET /api/politicians/:id/network. -/
structure NetworkGraph where
  nodes : List NetworkNode
  links : List NetworkLink
deriving DecidableEq, Repr

/-- The cutoff date of the network handler: now minus nDays days
(cutoffDate.setDate(cutoffDate.getDate() - nDays), modeled as exact
millisecond arithmetic). -/
def networkCutoff (now nDays : Int) : Int := now - nDays * msPerDay

/-- The network builder of GET /api/politicians/:id/network: filter the
contributions to those dated at or after the cutoff, collect the distinct
organizations in first-appearance order, emit the politician node, one node
per distinct organization and one link per in-window contribution. -/
def buildNetwork (p : Politician) (contribs : List Contribution) (now nDays : Int) :
    NetworkGraph :=
  let cutoff := networkCutoff now nDays
  let recent := contribs.filter (fun c => cutoff ≤ c.contributionDate)
  let orgs := recent.foldl (fun acc c => addOrg acc c.organization) []
  { nodes := politicianNode p :: orgs.map orgNode
    links := recent.map (contributionLink p) }

lemma mem_addOrg {acc : List String} {o x : String} :
    x ∈ addOrg acc o ↔ x ∈ acc ∨ x = o := by
  unfold addOrg
  split_ifs with h
  · constructor
    · exact Or.inl
    · rintro (hx | rfl)
      · exact hx
      · exact h
  · simp

lemma mem_foldl_addOrg (l : List Contribution) (acc : List String) (x : String) :
    x ∈ l.foldl (fun acc c => addOrg acc c.organization) acc
      ↔ x ∈ acc ∨ ∃ c ∈ l, c.organization = x := by
  induction l generalizing acc with
  | nil => simp
  | cons c l ih =>
    simp only [List.foldl_cons, ih, mem_addOrg, List.mem_cons]
    constructor
    · rintro ((hx | rfl) | ⟨c', hc', rfl⟩)
      · exact Or.inl hx
      · exact Or.inr ⟨c, Or.inl rfl, rfl⟩
      · exact Or.inr ⟨c', Or.inr hc', rfl⟩
    · rintro (hx | ⟨c', rfl | hc', rfl⟩)
      · exact Or.inl (Or.inl hx)
      · exact Or.inl (Or.inr rfl)
      · exact Or.inr ⟨c', hc', rfl⟩

lemma nodup_addOrg {acc : List String} {o : String} (h : acc.Nodup) :
    (addOrg acc o).Nodup := by
  unfold addOrg
  split_ifs with hmem
  · exact h
  · simp [List.nodup_append, h, hmem]

lemma nodup_foldl_addOrg (l : List Contribution) (acc : List String) (h : acc.Nodup) :
    (l.foldl (fun acc c => addOrg acc c.organization) acc).Nodup := by
  induction l generalizing acc with
  | nil => exact h
  | cons c l ih => exact ih _ (nodup_addOrg h)

/-- C6: the network builder keeps exactly the contributions dated at or
after now minus windowDays (the cutoff itself is included, one day earlier
is excluded), returns the politician node plus one node per distinct
in-window organization, and one link per in-window contribution whose
weight is the parsed amount, with parallel links preserved. -/
theorem network_window_and_shape (p : Politician) (contribs : List Contribution)
    (now nDays : Int) :
    ((buildNetwork p contribs now nDays).links
      = (contribs.filter
          (fun c => networkCutoff now nDays ≤ c.contributionDate)).map (contributionLink p))
    ∧ (∀ c, (contributionLink p c).weight = parseFloatJS c.amount)
    ∧ (∃ orgs : List String,
        (buildNetwork p contribs now nDays).nodes
            = politicianNode p :: orgs.map orgNode
          ∧ orgs.Nodup
          ∧ (∀ o, o ∈ orgs ↔ ∃ c ∈ contribs.filter
              (fun c => networkCutoff now nDays ≤ c.contributionDate),
              c.organization = o))
    ∧ (∀ c ∈ contribs, c.contributionDate = networkCutoff now nDays →
        c ∈ contribs.filter (fun c => networkCutoff now nDays ≤ c.contributionDate))
    ∧ (∀ c ∈ contribs, c.contributionDate = networkCutoff now nDays - msPerDay →
        c ∉ contribs.filter (fun c => networkCutoff now nDays ≤ c.contributionDate)) := by
  refine ⟨rfl, fun c => rfl, ?_, ?_, ?_⟩
  · refine ⟨(contribs.filter
        (fun c => networkCutoff now nDays ≤ c.contributionDate)).foldl
        (fun acc c => addOrg acc c.organization) [], ?_, ?_, ?_⟩
    · rfl
    · exact nodup_foldl_addOrg _ _ List.nodup_nil
    · intro o
      rw [mem_foldl_addOrg]
      simp
  · intro c hc heq
    rw [List.mem_filter]
    exact ⟨hc, by simp [heq]⟩
  · intro c _ heq hmem
    rw [List.mem_filter, heq] at hmem
    have h2 := hmem.2
    simp only [decide_eq_true_eq] at h2
    have : (0 : Int) < msPerDay := by norm_num [msPerDay]
    omega

/-- Sample politician for the concrete witnesses. -/
def samplePol : Politician :=
  { id := 7
    firstName := "Jane"
    lastName := "Doe"
    state := "CA"
    party := "Democrat"
    profileImage := none
    fecCandidateId := some "P00000001"
    bioguideId := none }

/-- A contribution dated exactly at the network cutoff for now =
1700000000000 and a 365-day window. -/
def contribAtCutoff : Contribution :=
  { id := 21
    politicianId := 7
    organization := "Acme PAC"
    amount := "1000"
    contributionDate := 1700000000000 - 365 * msPerDay
    industry := none }

/-- A contribution dated one day before that cutoff. -/
def contribBeforeCutoff : Contribution :=
  { contribAtCutoff with id := 22, contributionDate := 1700000000000 - 366 * msPerDay }

theorem network_window_and_shape_witness :
    contribAtCutoff ∈ [contribAtCutoff, contribBeforeCutoff].filter
        (fun c => networkCutoff 1700000000000 365 ≤ c.contributionDate)
      ∧ contribBeforeCutoff ∉ [contribAtCutoff, contribBeforeCutoff].filter
        (fun c => networkCutoff 1700000000000 365 ≤ c.contributionDate) := by
  have h := network_window_and_shape samplePol [contribAtCutoff, contribBeforeCutoff]
    1700000000000 365
  exact ⟨h.2.2.2.1 contribAtCutoff (by simp) (by decide),
    h.2.2.2.2 contribBeforeCutoff (by simp) (by decide)⟩

/-- The fixed party mapping table of data-mappers.ts, in source order. -/
def partyMap : List (String × String) :=
  [("DEM", "Democrat"), ("REP", "Republican"), ("IND", "Independent"),
   ("LIB", "Libertarian"), ("GRE", "Green"), ("CON", "Constitution"),
   ("D", "Democrat"), ("R", "Republican"), ("I", "Independent"),
   ("L", "Libertarian"), ("G", "Green")]

/-- Party-code normalization: table value when the code is a key, the code
itself otherwise (partyMap lookup with pass-through). -/
def mapPartyAbbreviation (partyCode : String) : String :=
  (partyMap.lookup partyCode).getD partyCode

/-- The fixed state mapping table of data-mappers.ts, in source order. -/
def stateMap : List (String × String) :=
  [("AL", "Alabama"), ("AK", "Alaska"), ("AZ", "Arizona"), ("AR", "Arkansas"),
   ("CA", "California"), ("CO", "Colorado"), ("CT", "Connecticut"),
   ("DE", "Delaware"), ("FL", "Florida"), ("GA", "Georgia"), ("HI", "Hawaii"),
   ("ID", "Idaho"), ("IL", "Illinois"), ("IN", "Indiana"), ("IA", "Iowa"),
   ("KS", "Kansas"), ("KY", "Kentucky"), ("LA", "Louisiana"), ("ME", "Maine"),
   ("MD", "Maryland"), ("MA", "Massachusetts"), ("MI", "Michigan"),
   ("MN", "Minnesota"), ("MS", "Mississippi"), ("MO", "Missouri"),
   ("MT", "Montana"), ("NE", "Nebraska"), ("NV", "Nevada"),
   ("NH", "New Hampshire"), ("NJ", "New Jersey"), ("NM", "New Mexico"),
   ("NY", "New York"), ("NC", "North Carolina"), ("ND", "North Dakota"),
   ("OH", "Ohio"), ("OK", "Oklahoma"), ("OR", "Oregon"),
   ("PA", "Pennsylvania"), ("RI", "Rhode Island"), ("SC", "South Carolina"),
   ("SD", "South Dakota"), ("TN", "Tennessee"), ("TX", "Texas"),
   ("UT", "Utah"), ("VT", "Vermont"), ("VA", "Virginia"),
   ("WA", "Washington"), ("WV", "West Virginia"), ("WI", "Wisconsin"),
   ("WY", "Wyoming"), ("DC", "District of Columbia")]

/-- State-code normalization with pass-through for unknown codes. -/
def normalizeStateCode (stateCode : String) : String :=
  (stateMap.lookup stateCode).getD stateCode

/-- C7: both normalizers are total functions of the input string; every key
of the fixed tables maps to its full name and every string that is not a
key (the empty string included) is returned exactly as given. -/
theorem normalization_totality :
    (∀ p ∈ partyMap, mapPartyAbbreviation p.1 = p.2)
    ∧ (∀ s, partyMap.lookup s = none → mapPartyAbbreviation s = s)
    ∧ mapPartyAbbreviation "D" = "Democrat"
    ∧ mapPartyAbbreviation "DEM" = "Democrat"
    ∧ mapPartyAbbreviation "" = ""
    ∧ (∀ p ∈ stateMap, normalizeStateCode p.1 = p.2)
    ∧ (∀ s, stateMap.lookup s = none → normalizeStateCode s = s)
    ∧ normalizeStateCode "CA" = "California"
    ∧ normalizeStateCode "" = "" := by
  refine ⟨by decide, ?_, by decide, by decide, by decide, by decide, ?_, by decide, by decide⟩
  · intro s h
    simp [mapPartyAbbreviation, h]
  · intro s h
    simp [normalizeStateCode, h]

theorem normalization_totality_witness :
    mapPartyAbbreviation "ZZZ" = "ZZZ" ∧ normalizeStateCode "ZZ" = "ZZ" :=
  ⟨normalization_totality.2.1 "ZZZ" (by decide),
   normalization_totality.2.2.2.2.2.2.1 "ZZ" (by decide)⟩

/-- Model of String.prototype.split with separator a single comma, on the
character-list view: every comma cuts, adjacent commas give empty parts, the
result is never empty. -/
def splitComma : List Char → List (List Char)
  | [] => [[]]
  | c :: cs =>
    if c = ',' then [] :: splitComma cs
    else
      match splitComma cs with
      | [] => [[c]]
      | p :: ps => (c :: p) :: ps

/-- Model of String.prototype.split with the two-character separator of a
comma followed by a space, as used by mapFecCandidateToPolitician. -/
def splitCommaSpace : List Char → List (List Char)
  | [] => [[]]
  | [c] => [[c]]
  | c :: c2 :: cs =>
    if c = ',' ∧ c2 = ' ' then [] :: splitCommaSpace cs
    else
      match splitCommaSpace (c2 :: cs) with
      | [] => [[c]]
      | p :: ps => (c :: p) :: ps

/-- Model of String.prototype.trim on the character-list view. -/
def trimChars (cs : List Char) : List Char :=
  ((cs.dropWhile Char.isWhitespace).reverse.dropWhile Char.isWhitespace).reverse

/-- The two name halves produced by the importers. -/
structure NameParts where
  firstName : List Char
  lastName : List Char
deriving DecidableEq, Repr

/-- Name splitting of mapFecCandidateToPolitician (data-mappers.ts): split
on comma-space, the second part (when present) is the first name and part
zero is the last name, with no trimming. -/
def splitNameDM (name : List Char) : NameParts :=
  let nameParts := splitCommaSpace name
  { firstName := if nameParts.length > 1 then nameParts.getD 1 [] else []
    lastName := nameParts.headD [] }

/-- Name splitting of importPoliticiansFromFec (fec-api.ts): split on
commas, part one trimmed (empty when absent) is the first name, part zero
trimmed is the last name. -/
def splitNameFec (name : List Char) : NameParts :=
  let parts := splitComma name
  { firstName := trimChars (parts.getD 1 [])
    lastName := trimChars (parts.getD 0 []) }

lemma splitComma_no_comma : ∀ l : List Char, ',' ∉ l → splitComma l = [l]
  | [], _ => rfl
  | c :: cs, h => by
    have hc : c ≠ ',' := fun hc => h (hc ▸ List.mem_cons_self c cs)
    have ih := splitComma_no_comma cs (fun hm => h (List.mem_cons_of_mem c hm))
    simp [splitComma, hc, ih]

lemma splitComma_sep : ∀ l f : List Char, ',' ∉ l →
    splitComma (l ++ ',' :: f) = l :: splitComma f
  | [], f, _ => by simp [splitComma]
  | c :: cs, f, h => by
    have hc : c ≠ ',' := fun hc => h (hc ▸ List.mem_cons_self c cs)
    have ih := splitComma_sep cs f (fun hm => h (List.mem_cons_of_mem c hm))
    simp [splitComma, hc, ih]

lemma splitCommaSpace_no_comma : ∀ l : List Char, ',' ∉ l → splitCommaSpace l = [l]
  | [], _ => rfl
  | [_], _ => rfl
  | c :: c2 :: cs, h => by
    have hc : c ≠ ',' := fun hc => h (hc ▸ List.mem_cons_self c (c2 :: cs))
    have ih := splitCommaSpace_no_comma (c2 :: cs)
      (fun hm => h (List.mem_cons_of_mem c hm))
    have hcond : ¬(c = ',' ∧ c2 = ' ') := fun hx => hc hx.1
    simp only [splitCommaSpace, if_neg hcond, ih]

lemma splitCommaSpace_sep : ∀ l f : List Char, ',' ∉ l →
    splitCommaSpace (l ++ ',' :: ' ' :: f) = l :: splitCommaSpace f
  | [], f, _ => by simp [splitCommaSpace]
  | [c], f, h => by
    have hc : c ≠ ',' := by
      intro hc
      exact h (hc ▸ List.mem_singleton_self c)
    have hcond : ¬(c = ',' ∧ (',' : Char) = ' ') := fun hx => hc hx.1
    show splitCommaSpace (c :: ',' :: ' ' :: f) = [c] :: splitCommaSpace f
    rw [splitCommaSpace, if_neg hcond]
    have : splitCommaSpace (',' :: ' ' :: f) = [] :: splitCommaSpace f := by
      simp [splitCommaSpace]
    rw [this]
  | c :: c2 :: cs, f, h => by
    have hc : c ≠ ',' := fun hc => h (hc ▸ List.mem_cons_self c (c2 :: cs))
    have ih := splitCommaSpace_sep (c2 :: cs) f (fun hm => h (List.mem_cons_of_mem c hm))
    have hcond : ¬(c = ',' ∧ c2 = ' ') := fun hx => hc hx.1
    show splitCommaSpace (c :: c2 :: (cs ++ ',' :: ' ' :: f))
      = (c :: c2 :: cs) :: splitCommaSpace f
    rw [splitCommaSpace, if_neg hcond]
    have harg : c2 :: (cs ++ ',' :: ' ' :: f) = (c2 :: cs) ++ ',' :: ' ' :: f := rfl
    rw [harg, ih]

/-- C8 counterexample: the claim predicts a split at the first comma, but
mapFecCandidateToPolitician only splits at comma-space, so a name with a
comma and no following space is not split at all, and both importers take
only the second comma segment as the first name, so everything after a
second comma is dropped rather than kept in the first name. -/
theorem name_split_counterexample :
    ¬((splitNameDM ("Smith,John".toList)).lastName = "Smith".toList
        ∧ (splitNameDM ("Smith,John".toList)).firstName = "John".toList)
    ∧ (splitNameDM ("Smith,John".toList)).lastName = "Smith,John".toList
    ∧ (splitNameDM ("Smith,John".toList)).firstName = []
    ∧ (splitNameFec ("Doe, John, Jr.".toList)).firstName ≠ "John, Jr.".toList
    ∧ (splitNameFec ("Doe, John, Jr.".toList)).firstName ≠ " John, Jr.".toList
    ∧ (splitNameFec ("Doe, John, Jr.".toList)).firstName = "John".toList := by
  decide

/-- C8 amended: splitting assigns the segment before the first separator as
the last name and the segment immediately after it, up to the next
separator, as the first name; mapFecCandidateToPolitician splits on
comma-space with no trimming, importPoliticiansFromFec splits on commas and
trims both parts; with no separator present, the whole string is the last
name and the first name is empty. -/
theorem name_split_amended (l f r : List Char) (hl : (',' : Char) ∉ l)
    (hf : (',' : Char) ∉ f) :
    splitNameFec (l ++ ',' :: f) = ⟨trimChars f, trimChars l⟩
    ∧ splitNameFec (l ++ ',' :: f ++ ',' :: r) = ⟨trimChars f, trimChars l⟩
    ∧ splitNameFec l = ⟨[], trimChars l⟩
    ∧ splitNameDM (l ++ ',' :: ' ' :: f) = ⟨f, l⟩
    ∧ splitNameDM l = ⟨[], l⟩ := by
  refine ⟨?_, ?_, ?_, ?_, ?_⟩
  · rw [splitNameFec, splitComma_sep l f hl, splitComma_no_comma f hf]
    rfl
  · have harg : l ++ ',' :: f ++ ',' :: r = l ++ ',' :: (f ++ ',' :: r) := by simp
    rw [splitNameFec, harg, splitComma_sep l _ hl, splitComma_sep f r hf]
    rfl
  · rw [splitNameFec, splitComma_no_comma l hl]
    rfl
  · rw [splitNameDM, splitCommaSpace_sep l f hl, splitCommaSpace_no_comma f hf]
    rfl
  · rw [splitNameDM, splitCommaSpace_no_comma l hl]
    rfl

theorem name_split_amended_witness :
    splitNameFec ("Doe, John".toList)
      = ⟨"John".toList, "Doe".toList⟩
    ∧ splitNameDM ("Doe, John".toList)
      = ⟨"John".toList, "Doe".toList⟩ := by
  have h := name_split_amended ("Doe".toList) (" John".toList) [] (by decide) (by decide)
  constructor
  · have h1 := h.1
    have harg : "Doe".toList ++ ',' :: " John".toList = "Doe, John".toList := by decide
    rw [harg] at h1
    rw [h1]
    decide
  · have h4 := h.2.2.2.1
    have harg : "Doe".toList ++ ',' :: ' ' :: "John".toList = "Doe, John".toList := by
      decide
    have hf2 : (',' : Char) ∉ "John".toList := by decide
    have h4' := (name_split_amended ("Doe".toList) ("John".toList) [] (by decide) hf2).2.2.2.1
    rw [harg] at h4'
    exact h4'

/-- A raw JSON amount field as the importers receive it: absent (or null),
a number, or a string. Numbers are exact rationals; NaN can only arise from
parsing and is modeled by Option.none there. -/
inductive RawAmount where
  | missing
  | num (q : ℚ)
  | str (s : String)
deriving DecidableEq, Repr

/-- JavaScript falsiness of a raw amount: undefined and null, the number
zero, and the empty string are falsy. -/
def rawFalsy : RawAmount → Bool
  | .missing => true
  | .num q => q == 0
  | .str s => s == ""

/-- JavaScript String() coercion of a raw amount. -/
def jsStringOf : RawAmount → String
  | .missing => "undefined"
  | .num q => toString q
  | .str s => s

/-- The amount normalization of mapFecDonationToContribution
(data-mappers.ts line 25): String of the field when truthy, of the string
zero otherwise. -/
def normalizeAmountDM (a : RawAmount) : String :=
  jsStringOf (if rawFalsy a then .str "0" else a)

/-- parseFloat applied to a raw amount, after the implicit string coercion:
a number parses to itself, undefined to NaN, a string through the
parseFloat model. -/
def parseFloatRaw : RawAmount → Option ℚ
  | .num q => some q
  | .missing => none
  | .str s => parseFloatJS s

/-- The amount normalization of importContributionsForPolitician
(fec-api.ts lines 281 and 293): parseFloat with fallback zero for NaN, then
number-to-string. -/
def normalizeAmountFec (a : RawAmount) : String :=
  toString ((parseFloatRaw a).getD 0)

/-- C9 counterexample: in mapFecDonationToContribution a non-numeric string
amount such as the string abc is invalid (parseFloat of it is NaN) yet it
passes through unchanged instead of normalizing to zero. -/
theorem amount_normalization_counterexample :
    parseFloatRaw (.str "abc") = none
    ∧ normalizeAmountDM (.str "abc") = "abc"
    ∧ "abc" ≠ "0" := by
  refine ⟨by decide, by decide, by decide⟩

/-- C9 amended: no amount ever fails a record and the normalized amount is a
string; the fec-api import path normalizes every invalid or missing amount
to the string zero, while mapFecDonationToContribution normalizes missing,
zero and empty-string amounts to the string zero but passes any other
string, valid or not, through unchanged. -/
theorem amount_normalization_amended :
    (∀ a, parseFloatRaw a = none → normalizeAmountFec a = "0")
    ∧ normalizeAmountFec .missing = "0"
    ∧ (∀ s, parseFloatJS s = none → normalizeAmountFec (.str s) = "0")
    ∧ normalizeAmountDM .missing = "0"
    ∧ normalizeAmountDM (.num 0) = "0"
    ∧ normalizeAmountDM (.str "") = "0"
    ∧ (∀ s, s ≠ "" → normalizeAmountDM (.str s) = s)
    ∧ (∀ q : ℚ, q ≠ 0 → normalizeAmountFec (.num q) = toString q) := by
  refine ⟨?_, by decide, ?_, by decide, by decide, by decide, ?_, ?_⟩
  · intro a h
    rw [normalizeAmountFec, h]
    rfl
  · intro s h
    rw [normalizeAmountFec]
    show toString ((parseFloatJS s).getD 0) = "0"
    rw [h]
    rfl
  · intro s hs
    rw [normalizeAmountDM]
    have : rawFalsy (.str s) = false := by
      simp [rawFalsy, hs]
    rw [this]
    rfl
  · intro q _
    rfl

theorem amount_normalization_amended_witness :
    normalizeAmountFec (.str "abc") = "0"
    ∧ normalizeAmountDM (.str "12.5") = "12.5" :=
  ⟨amount_normalization_amended.1 (.str "abc") (by decide),
   amount_normalization_amended.2.2.2.2.2.2.1 "12.5" (by decide)⟩

/-- The days parameter handling of the conflicts endpoint:
parseInt(req.query.days) with fallback 30 when the result is NaN (absent or
non-numeric parameter) or zero (falsy). -/
def daysParam (q : Option String) : Int :=
  match q with
  | none => 30
  | some s =>
    match parseIntJS s with
    | none => 30
    | some d => if d = 0 then 30 else d

/-- The conflicts endpoint as a function of the raw days query parameter. -/
def conflictsEndpoint (ts : List StockTransaction) (vs : List Vote)
    (q : Option String) : List Conflict :=
  detectConflicts ts vs (daysParam q)

/-- C10: an absent, non-numeric or zero days parameter falls back to the
default window of 30 days, so days=0 cannot request a same-day-only window
and yields exactly the same conflicts as days=30 and as no parameter. -/
theorem days_param_default :
    daysParam none = 30
    ∧ (∀ s, parseIntJS s = none → daysParam (some s) = 30)
    ∧ daysParam (some "0") = 30
    ∧ (∀ ts vs, conflictsEndpoint ts vs (some "0") = conflictsEndpoint ts vs (some "30"))
    ∧ (∀ ts vs, conflictsEndpoint ts vs (some "0") = conflictsEndpoint ts vs none) := by
  refine ⟨rfl, ?_, by decide, ?_, ?_⟩
  · intro s h
    rw [daysParam, h]
  · intro ts vs
    rw [conflictsEndpoint, conflictsEndpoint]
    have h30 : daysParam (some "0") = daysParam (some "30") := by decide
    rw [h30]
  · intro ts vs
    rw [conflictsEndpoint, conflictsEndpoint]
    have h30 : daysParam (some "0") = daysParam none := by decide
    rw [h30]

theorem days_param_default_witness :
    daysParam (some "abc") = 30
    ∧ conflictsEndpoint [sampleTxn] [sampleVote] (some "0")
      = conflictsEndpoint [sampleTxn] [sampleVote] (some "30") :=
  ⟨days_param_default.2.1 "abc" (by decide),
   days_param_default.2.2.2.1 [sampleTxn] [sampleVote]⟩

/-- A row of the politician_aliases table (migration part_013): the
(source, external_id) pair maps to a politician id. -/
structure AliasRow where
  id : Nat
  politicianId : Nat
  source : String
  externalId : String
deriving DecidableEq, Repr

/-- The attributes extracted from one FEC member record by
importPoliticiansFromFec before resolving. -/
structure CandidateAttrs where
  firstName : String
  lastName : String
  party : String
  state : String
  candidateId : String
deriving DecidableEq, Repr

/-- The database state the resolver touches: the politicians and alias
tables plus the next serial ids. -/
structure Db where
  politicians : List Politician
  aliases : List AliasRow
  nextPolId : Nat
  nextAliasId : Nat
deriving DecidableEq, Repr

/-- The where-clause of the alias lookup: source and external id both
equal. -/
def matchKey (src extId : String) (a : AliasRow) : Bool :=
  a.source == src && a.externalId == extId

/-- db.query.politicianAliases.findFirst on (source, externalId). -/
def findAlias (db : Db) (src extId : String) : Option AliasRow :=
  db.aliases.find? (matchKey src extId)

/-- The update applied to the existing politician when the alias is found
(fec-api.ts lines 189 to 197). -/
def updatePolitician (attrs : CandidateAttrs) (p : Politician) : Politician :=
  { p with
    firstName := attrs.firstName
    lastName := attrs.lastName
    party := attrs.party
    state := attrs.state
    fecCandidateId := some attrs.candidateId }

/-- The politician row inserted when no alias exists
(fec-api.ts lines 202 to 210). -/
def newPolitician (pid : Nat) (attrs : CandidateAttrs) : Politician :=
  { id := pid
    firstName := attrs.firstName
    lastName := attrs.lastName
    state := attrs.state
    party := attrs.party
    profileImage := none
    fecCandidateId := some attrs.candidateId
    bioguideId := none }

/-- The alias row inserted right after a new politician
(fec-api.ts lines 214 to 219). -/
def newAliasRow (db : Db) (src : String) (attrs : CandidateAttrs) : AliasRow :=
  { id := db.nextAliasId
    politicianId := db.nextPolId
    source := src
    externalId := attrs.candidateId }

/-- One resolution step for one member record, the body of the import loop
of importPoliticiansFromFec: look the alias up; when found, update that
politician in place and use its id; otherwise insert a new politician and
the alias row pointing at it. -/
def resolveStep (db : Db) (src : String) (attrs : CandidateAttrs) : Nat × Db :=
  match findAlias db src attrs.candidateId with
  | some al =>
    (al.politicianId,
     { db with
        politicians := db.politicians.map
          (fun p => if p.id = al.politicianId then updatePolitician attrs p else p) })
  | none =>
    (db.nextPolId,
     { politicians := db.politicians ++ [newPolitician db.nextPolId attrs]
       aliases := db.aliases ++ [newAliasRow db src attrs]
       nextPolId := db.nextPolId + 1
       nextAliasId := db.nextAliasId + 1 })

/-- N sequential resolutions of the same record, collecting the returned
politician ids. -/
def resolveN : Nat → Db → String → CandidateAttrs → List Nat × Db
  | 0, db, _, _ => ([], db)
  | n + 1, db, src, attrs =>
    let r := resolveStep db src attrs
    let rest := resolveN n r.2 src attrs
    (r.1 :: rest.1, rest.2)

lemma resolveStep_found (db : Db) (src : String) (attrs : CandidateAttrs)
    (al : AliasRow) (h : findAlias db src attrs.candidateId = some al) :
    resolveStep db src attrs =
      (al.politicianId,
       { db with
          politicians := db.politicians.map
            (fun p => if p.id = al.politicianId then updatePolitician attrs p else p) }) := by
  unfold resolveStep
  rw [h]

lemma resolveStep_none (db : Db) (src : String) (attrs : CandidateAttrs)
    (h : findAlias db src attrs.candidateId = none) :
    resolveStep db src attrs =
      (db.nextPolId,
       { politicians := db.politicians ++ [newPolitician db.nextPolId attrs]
         aliases := db.aliases ++ [newAliasRow db src attrs]
         nextPolId := db.nextPolId + 1
         nextAliasId := db.nextAliasId + 1 }) := by
  unfold resolveStep
  rw [h]

lemma find?_append_none {α : Type} (p : α → Bool) (l₁ l₂ : List α)
    (h : l₁.find? p = none) : (l₁ ++ l₂).find? p = l₂.find? p := by
  induction l₁ with
  | nil => rfl
  | cons a l ih =>
    cases hp : p a with
    | true => simp [List.find?, hp] at h
    | false =>
      simp only [List.find?, hp] at h
      simp only [List.cons_append, List.find?, hp]
      exact ih h

lemma countP_update_map (l : List Politician) (attrs : CandidateAttrs)
    (pid x : Nat) :
    (l.map (fun p => if p.id = pid then updatePolitician attrs p else p)).countP
        (fun p => p.id == x)
      = l.countP (fun p => p.id == x) := by
  rw [List.countP_map]
  apply List.countP_congr
  intro p _
  by_cases hp : p.id = pid <;> simp [Function.comp, hp, updatePolitician]

/-- After any number of further resolutions starting from a state whose
alias lookup already succeeds, the returned ids are all that alias target,
the alias table is unchanged and every politician id count is unchanged. -/
lemma resolveN_found (n : Nat) (db : Db) (src : String) (attrs : CandidateAttrs)
    (al : AliasRow) (h : findAlias db src attrs.candidateId = some al) :
    (resolveN n db src attrs).1 = List.replicate n al.politicianId
    ∧ (resolveN n db src attrs).2.aliases = db.aliases
    ∧ (∀ x : Nat,
        (resolveN n db src attrs).2.politicians.countP (fun p => p.id == x)
          = db.politicians.countP (fun p => p.id == x))
    ∧ (resolveN n db src attrs).2.politicians.length = db.politicians.length := by
  induction n generalizing db with
  | zero => exact ⟨rfl, rfl, fun x => rfl, rfl⟩
  | succ n ih =>
    have hstep := resolveStep_found db src attrs al h
    have hdb1 : (resolveStep db src attrs).2.aliases = db.aliases := by
      rw [hstep]
    have hfind1 : findAlias (resolveStep db src attrs).2 src attrs.candidateId = some al := by
      unfold findAlias at h ⊢
      rw [hdb1]
      exact h
    have ihr := ih (resolveStep db src attrs).2 hfind1
    refine ⟨?_, ?_, ?_, ?_⟩
    · show (resolveStep db src attrs).1 :: (resolveN n (resolveStep db src attrs).2 src attrs).1
        = List.replicate (n + 1) al.politicianId
      rw [ihr.1, hstep, List.replicate_succ]
    · show (resolveN n (resolveStep db src attrs).2 src attrs).2.aliases = db.aliases
      rw [ihr.2.1, hdb1]
    · intro x
      show (resolveN n (resolveStep db src attrs).2 src attrs).2.politicians.countP _
        = _
      rw [ihr.2.2.1 x, hstep]
      exact countP_update_map _ _ _ _
    · show (resolveN n (resolveStep db src attrs).2 src attrs).2.politicians.length = _
      rw [ihr.2.2.2, hstep]
      simp

/-- C3: under the storage invariants (each alias points at exactly one
politician row, politician ids are below the next serial value, at most one
alias row matches the key), N sequential resolutions of the same
(source, externalId) all return one politician id, leave exactly one alias
row for the key and exactly one politician row with that id, and grow the
politicians table by at most the single row the first call may insert. -/
theorem alias_resolution_idempotent (db : Db) (src : String)
    (attrs : CandidateAttrs) (n : Nat) (hn : 1 ≤ n)
    (hWfAlias : ∀ a ∈ db.aliases,
      db.politicians.countP (fun p => p.id == a.politicianId) = 1)
    (hFresh : ∀ p ∈ db.politicians, p.id < db.nextPolId)
    (hKey : db.aliases.countP (matchKey src attrs.candidateId) ≤ 1) :
    ∃ pid,
      (resolveN n db src attrs).1 = List.replicate n pid
      ∧ (resolveN n db src attrs).2.aliases.countP (matchKey src attrs.candidateId) = 1
      ∧ (resolveN n db src attrs).2.politicians.countP (fun p => p.id == pid) = 1
      ∧ (resolveN n db src attrs).2.politicians.length ≤ db.politicians.length + 1 := by
  obtain ⟨m, rfl⟩ : ∃ m, n = m + 1 := ⟨n - 1, by omega⟩
  cases hfind : findAlias db src attrs.candidateId with
  | some al =>
    refine ⟨al.politicianId, ?_⟩
    have hal_mem : al ∈ db.aliases := List.mem_of_find?_eq_some hfind
    have hal_match : matchKey src attrs.candidateId al = true := List.find?_some hfind
    have hcount1 : db.aliases.countP (matchKey src attrs.candidateId) = 1 := by
      have hpos : 0 < db.aliases.countP (matchKey src attrs.candidateId) :=
        List.countP_pos_iff.mpr ⟨al, hal_mem, hal_match⟩
      omega
    have hstep := resolveStep_found db src attrs al hfind
    have hdb1al : (resolveStep db src attrs).2.aliases = db.aliases := by rw [hstep]
    have hfind1 : findAlias (resolveStep db src attrs).2 src attrs.candidateId = some al := by
      unfold findAlias at hfind ⊢
      rw [hdb1al]
      exact hfind
    have hrest := resolveN_found m (resolveStep db src attrs).2 src attrs al hfind1
    refine ⟨?_, ?_, ?_, ?_⟩
    · show (resolveStep db src attrs).1 :: _ = _
      rw [hrest.1, hstep, List.replicate_succ]
    · show (resolveN m (resolveStep db src attrs).2 src attrs).2.aliases.countP _ = 1
      rw [hrest.2.1, hdb1al, hcount1]
    · show (resolveN m (resolveStep db src attrs).2 src attrs).2.politicians.countP _ = 1
      rw [hrest.2.2.1, hstep]
      rw [countP_update_map]
      exact hWfAlias al hal_mem
    · show (resolveN m (resolveStep db src attrs).2 src attrs).2.politicians.length ≤ _
      rw [hrest.2.2.2, hstep]
      simp
  | none =>
    refine ⟨db.nextPolId, ?_⟩
    have hstep := resolveStep_none db src attrs hfind
    have hzero : db.aliases.countP (matchKey src attrs.candidateId) = 0 := by
      rw [List.countP_eq_zero]
      intro a ha
      exact List.find?_eq_none.mp hfind a ha
    have hmatch_new : matchKey src attrs.candidateId (newAliasRow db src attrs) = true := by
      simp [matchKey, newAliasRow]
    have hdb1al : (resolveStep db src attrs).2.aliases
        = db.aliases ++ [newAliasRow db src attrs] := by rw [hstep]
    have hfind1 : findAlias (resolveStep db src attrs).2 src attrs.candidateId
        = some (newAliasRow db src attrs) := by
      unfold findAlias
      rw [hdb1al, find?_append_none _ _ _ hfind, List.find?_cons, hmatch_new]
    have hpolzero : db.politicians.countP (fun p => p.id == db.nextPolId) = 0 := by
      rw [List.countP_eq_zero]
      intro p hp
      have := hFresh p hp
      simp only [beq_iff_eq]
      omega
    have hrest := resolveN_found m (resolveStep db src attrs).2 src attrs
      (newAliasRow db src attrs) hfind1
    have hpid_new : (newAliasRow db src attrs).politicianId = db.nextPolId := rfl
    refine ⟨?_, ?_, ?_, ?_⟩
    · show (resolveStep db src attrs).1 :: _ = _
      rw [hrest.1, hstep, hpid_new, List.replicate_succ]
    · show (resolveN m (resolveStep db src attrs).2 src attrs).2.aliases.countP _ = 1
      rw [hrest.2.1, hdb1al, List.countP_append, hzero]
      simp [hmatch_new]
    · show (resolveN m (resolveStep db src attrs).2 src attrs).2.politicians.countP _ = 1
      rw [hrest.2.2.1 db.nextPolId, hstep]
      rw [List.countP_append, hpolzero]
      simp [newPolitician]
    · show (resolveN m (resolveStep db src attrs).2 src attrs).2.politicians.length ≤ _
      rw [hrest.2.2.2, hstep]
      simp

/-- An empty database, fresh serials starting at 1. -/
def emptyDb : Db := { politicians := [], aliases := [], nextPolId := 1, nextAliasId := 1 }

/-- Sample FEC member attributes for the witness. -/
def sampleAttrs : CandidateAttrs :=
  { firstName := "Jane"
    lastName := "Doe"
    party := "DEM"
    state := "CA"
    candidateId := "P00000001" }

theorem alias_resolution_idempotent_witness :
    ∃ pid,
      (resolveN 2 emptyDb "fec" sampleAttrs).1 = List.replicate 2 pid
      ∧ (resolveN 2 emptyDb "fec" sampleAttrs).2.aliases.countP
          (matchKey "fec" sampleAttrs.candidateId) = 1
      ∧ (resolveN 2 emptyDb "fec" sampleAttrs).2.politicians.countP
          (fun p => p.id == pid) = 1
      ∧ (resolveN 2 emptyDb "fec" sampleAttrs).2.politicians.length
          ≤ emptyDb.politicians.length + 1 :=
  alias_resolution_idempotent emptyDb "fec" sampleAttrs 2 (by decide)
    (by intro a ha; simp [emptyDb] at ha) (by intro p hp; simp [emptyDb] at hp)
    (by decide)

end NV
